import Mathlib

/-!
Verification of the event normalization and reconciliation engine of
`c2g` (`src/index.js`), a one-way Cybozu → Google calendar synchronizer.

The JavaScript source is shallowly embedded:

* CSV rows are `List String` (the output of `csv-parse`); `line[i]` is
  modelled by `fld`.
* JavaScript field values that may be `undefined`, `null`, or a string
  (the `date` / `dateTime` members of an event's `start` / `end`) are
  modelled by `JField := Option (Option String)`: `none` is an absent
  property, `some none` is `null`, `some (some s)` is the string `s`.
* `new Date(string).getTime()` is modelled by `Option Int` (epoch
  milliseconds; `none` is an invalid date, whose `getTime()` is `NaN` —
  `NaN` never compares equal, which the `Option` match reproduces).
  The model covers exactly the string shapes this program feeds to
  `Date`: `"YYYY-MM-DD"` (ISO, parsed as UTC midnight), the ISO output
  of `toISOString` (`YYYY-MM-DDTHH:MM:SS.mmmZ`), and the normalizer's
  concatenations `date + ' ' + time` (legacy parse, interpreted in the
  host time zone, passed in as an offset `tz` in minutes, as in
  `Date.getTimezoneOffset`-less fixed-offset hosts).  Every other shape
  parses to `none`, matching V8 on the malformed inputs considered here.
* `moment` values are `Option Int` epoch milliseconds (`none` invalid):
  `moment(date)`, `isSameOrAfter`, `add(1, 'd')`, `format("YYYY-MM-DD")`
  (which yields the string `"Invalid date"` on an invalid moment) and
  `toISOString` (which yields `null` on an invalid moment) are modelled
  by `momSameOrAfter`, `momAdd`, `momFormatDate`, `momToISO`.
-/

namespace C2G

/-! ### Calendar arithmetic (proleptic Gregorian, as used by JS `Date`) -/

def isLeap (y : Nat) : Bool :=
  (y % 4 = 0 && y % 100 ≠ 0) || y % 400 = 0

/-- Days in month `m` (1–12) of a (non-)leap year. -/
def dim (leap : Bool) (m : Nat) : Nat :=
  if m = 2 then (if leap then 29 else 28)
  else if m = 4 ∨ m = 6 ∨ m = 9 ∨ m = 11 then 30 else 31

/-- Days strictly before month `m` (1–12) within a year. -/
def daysBeforeMonth (leap : Bool) (m : Nat) : Nat :=
  (match m with
   | 1 => 0 | 2 => 31 | 3 => 59 | 4 => 90 | 5 => 120 | 6 => 151
   | 7 => 181 | 8 => 212 | 9 => 243 | 10 => 273 | 11 => 304 | _ => 334)
  + (if leap ∧ 2 < m then 1 else 0)

/-- Number of leap years in `[1, y]`. -/
def leapsUpto (y : Nat) : Nat := y / 4 - y / 100 + y / 400

structure YMD where
  y : Nat
  m : Nat
  d : Nat
deriving DecidableEq

/-- Day count with `0001-01-01 = 0` (proleptic Gregorian). -/
def rataDie (t : YMD) : Nat :=
  365 * (t.y - 1) + leapsUpto (t.y - 1) + daysBeforeMonth (isLeap t.y) t.m + (t.d - 1)

/-- `rataDie ⟨1970, 1, 1⟩`. -/
def epochShift : Nat := 719162

/-- Days since the Unix epoch `1970-01-01`. -/
def epochDay (t : YMD) : Int := (rataDie t : Int) - (epochShift : Int)

def msPerDay : Int := 86400000

/-- Civil date from days since the Unix epoch (Hinnant's `civil_from_days`;
only used for day counts at or after year 1). -/
def civilFromDays (z : Int) : YMD :=
  let zn := (z + 719468).toNat
  let era := zn / 146097
  let doe := zn % 146097
  let yoe := (doe - doe / 1460 + doe / 36524 - doe / 146096) / 365
  let y := yoe + era * 400
  let doy := doe - (365 * yoe + yoe / 4 - yoe / 100)
  let mp := (5 * doy + 2) / 153
  let d := doy - (153 * mp + 2) / 5 + 1
  if mp < 10 then ⟨y, mp + 3, d⟩ else ⟨y + 1, mp - 9, d⟩

/-! ### Digit strings and JS string comparison -/

def isDig (c : Char) : Bool := 48 ≤ c.toNat && c.toNat ≤ 57

/-- Numeric value of a most-significant-first digit list. -/
def natOfDigits : List Char → Nat
  | [] => 0
  | c :: cs => (c.toNat - 48) * 10 ^ cs.length + natOfDigits cs

/-- JS `<` on strings (UTF-16 code-unit lexicographic; these strings are
ASCII, where code units and scalar values agree). -/
def lexLtB : List Char → List Char → Bool
  | [], [] => false
  | [], _ :: _ => true
  | _ :: _, [] => false
  | c1 :: t1, c2 :: t2 =>
    if c1.toNat < c2.toNat then true
    else if c2.toNat < c1.toNat then false
    else lexLtB t1 t2

def strLtB (s1 s2 : String) : Bool := lexLtB s1.data s2.data

/-! ### The JS date parser, restricted to the shapes this program uses -/

/-- Parse `"YYYY-MM-DD"` (the ISO date-only format, and the only date
shape appearing in this program's data).  Range-checked as V8 does for
ISO strings; anything else is an invalid date. -/
def parseYMDchars : List Char → Option YMD
  | [y1, y2, y3, y4, '-', m1, m2, '-', d1, d2] =>
    if isDig y1 ∧ isDig y2 ∧ isDig y3 ∧ isDig y4 ∧ isDig m1 ∧ isDig m2
        ∧ isDig d1 ∧ isDig d2
        ∧ 1 ≤ natOfDigits [y1, y2, y3, y4]
        ∧ 1 ≤ natOfDigits [m1, m2] ∧ natOfDigits [m1, m2] ≤ 12
        ∧ 1 ≤ natOfDigits [d1, d2]
        ∧ natOfDigits [d1, d2]
            ≤ dim (isLeap (natOfDigits [y1, y2, y3, y4])) (natOfDigits [m1, m2]) then
      some ⟨natOfDigits [y1, y2, y3, y4], natOfDigits [m1, m2], natOfDigits [d1, d2]⟩
    else none
  | _ => none

def parseYMD (s : String) : Option YMD := parseYMDchars s.data

/-- Parse `"HH:MM"` or `"HH:MM:SS"` (the time shapes in the export and
the literal `"23:59:59"`), in milliseconds since midnight. -/
def timeMillis (s : String) : Option Int :=
  match s.data with
  | [h1, h2, ':', m1, m2] =>
    if isDig h1 ∧ isDig h2 ∧ isDig m1 ∧ isDig m2
        ∧ natOfDigits [h1, h2] ≤ 23 ∧ natOfDigits [m1, m2] ≤ 59 then
      some ((natOfDigits [h1, h2] * 3600000 + natOfDigits [m1, m2] * 60000 : Nat) : Int)
    else none
  | [h1, h2, ':', m1, m2, ':', s1, s2] =>
    if isDig h1 ∧ isDig h2 ∧ isDig m1 ∧ isDig m2 ∧ isDig s1 ∧ isDig s2
        ∧ natOfDigits [h1, h2] ≤ 23 ∧ natOfDigits [m1, m2] ≤ 59
        ∧ natOfDigits [s1, s2] ≤ 59 then
      some ((natOfDigits [h1, h2] * 3600000 + natOfDigits [m1, m2] * 60000
        + natOfDigits [s1, s2] * 1000 : Nat) : Int)
    else none
  | _ => none

/-- Parse the output format of `Date.prototype.toISOString`,
`"YYYY-MM-DDTHH:MM:SS.mmmZ"`, as an absolute instant. -/
def parseIsoZ (s : String) : Option Int :=
  match s.data with
  | [y1, y2, y3, y4, '-', m1, m2, '-', d1, d2, 'T',
     h1, h2, ':', mi1, mi2, ':', s1, s2, '.', f1, f2, f3, 'Z'] =>
    match parseYMDchars [y1, y2, y3, y4, '-', m1, m2, '-', d1, d2] with
    | some t =>
      if isDig f1 ∧ isDig f2 ∧ isDig f3 then
        match timeMillis ⟨[h1, h2, ':', mi1, mi2, ':', s1, s2]⟩ with
        | some tm => some (epochDay t * msPerDay + tm + (natOfDigits [f1, f2, f3] : Int))
        | none => none
      else none
    | none => none
  | _ => none

/-- `new Date(s).getTime()` for a stored event time string (either an
ISO date, parsed as UTC midnight, or a `toISOString` instant). -/
def newDateStr (s : String) : Option Int :=
  match parseYMD s with
  | some t => some (epochDay t * msPerDay)
  | none => parseIsoZ s

/-- `new Date(ds + ' ' + ts).getTime()` as the normalizer builds it: a
space-separated date/time falls to the legacy parser and is interpreted
in the host time zone (`tz` = minutes east of UTC).  An empty time
yields local midnight; an unparseable part yields an invalid date. -/
def newDateConcat (tz : Int) (ds ts : String) : Option Int :=
  match parseYMD ds with
  | some t =>
    if ts = "" then some (epochDay t * msPerDay - tz * 60000)
    else
      match timeMillis ts with
      | some tm => some (epochDay t * msPerDay + tm - tz * 60000)
      | none => none
  | none => none

/-! ### moment operations used by the normalizer -/

/-- `moment(a).isSameOrAfter(moment(b))`: false whenever either moment is
invalid. -/
def momSameOrAfter : Option Int → Option Int → Bool
  | some a, some b => b ≤ a
  | _, _ => false

/-- `moment.add(n, 'ms')` (the source adds one day; with a fixed-offset
host zone this is 86 400 000 ms). -/
def momAdd (m : Option Int) (n : Int) : Option Int := m.map (· + n)

def pad2 (n : Nat) : String := if n < 10 then "0" ++ toString n else toString n

def pad3 (n : Nat) : String :=
  if n < 10 then "00" ++ toString n else if n < 100 then "0" ++ toString n else toString n

def pad4 (n : Nat) : String :=
  if n < 10 then "000" ++ toString n
  else if n < 100 then "00" ++ toString n
  else if n < 1000 then "0" ++ toString n
  else toString n

def ymdString (t : YMD) : String :=
  pad4 t.y ++ "-" ++ pad2 t.m ++ "-" ++ pad2 t.d

/-- `Date.prototype.toISOString` for a valid instant. -/
def isoStr (m : Int) : String :=
  let dayN := m.ediv msPerDay
  let ms := (m.emod msPerDay).toNat
  ymdString (civilFromDays dayN) ++ "T" ++ pad2 (ms / 3600000) ++ ":"
    ++ pad2 (ms % 3600000 / 60000) ++ ":" ++ pad2 (ms % 60000 / 1000)
    ++ "." ++ pad3 (ms % 1000) ++ "Z"

/-- `moment.format("YYYY-MM-DD")`: the local calendar date, or the
string `"Invalid date"` for an invalid moment. -/
def momFormatDate (tz : Int) : Option Int → String
  | none => "Invalid date"
  | some m => ymdString (civilFromDays ((m + tz * 60000).ediv msPerDay))

/-- `moment.toISOString()`: `null` for an invalid moment. -/
def momToISO : Option Int → Option String
  | none => none
  | some m => some (isoStr m)

/-! ### The event data model -/

/-- A JS object property that is absent (`none`), `null` (`some none`)
or a string (`some (some s)`). -/
abbrev JField := Option (Option String)

/-- JS truthiness for a `JField`: only a non-empty string is truthy. -/
def truthy : JField → Bool
  | some (some s) => s ≠ ""
  | _ => false

structure TimeField where
  date : JField := none
  dateTime : JField := none
deriving DecidableEq

structure Event where
  start : TimeField
  «end» : TimeField
  summary : String
  description : String := ""
  location : String := ""
deriving DecidableEq

/-! ### `isEqualDate` (src/index.js lines 106–123) -/

/-- The inner `check`: `new Date(d1).getTime() === new Date(d2).getTime()`.
Invalid dates have `NaN` time values and `NaN === NaN` is false, hence
the `Option` match. -/
def check (d1 d2 : String) : Bool :=
  match newDateStr d1, newDateStr d2 with
  | some a, some b => a == b
  | _, _ => false

/-- One guarded comparison `f1 && f2 && check(f1, f2)` of the source
(falsy fields short-circuit, so `check` only ever sees truthy strings). -/
def fieldCheck (f1 f2 : JField) : Bool :=
  match f1, f2 with
  | some (some s1), some (some s2) => s1 ≠ "" && s2 ≠ "" && check s1 s2
  | _, _ => false

/-- `isEqualDate(t1, t2)`: the `if`/`else if` cascade on `start` and `end`. -/
def isEqualDate (t1 t2 : Event) : Bool :=
  let isEqualStart :=
    fieldCheck t1.start.date t2.start.date || fieldCheck t1.start.dateTime t2.start.dateTime
  let isEqualEnd :=
    fieldCheck t1.«end».date t2.«end».date || fieldCheck t1.«end».dateTime t2.«end».dateTime
  isEqualStart && isEqualEnd

/-- The full match condition of both reconciliation loops:
`old.summary === event.summary && isEqualDate(old, event)`. -/
def eventMatch (old ev : Event) : Bool :=
  old.summary == ev.summary && isEqualDate old ev

/-! ### The CSV row normalizer (src/index.js lines 164–215) -/

def fld (line : List String) (i : Nat) : String := line.getD i ""

/-- Lines 172–186: the same-day end-of-day default and the
reversed-range wholesale swap, producing the effective
`(startDate, startTime, endDate, endTime)`. -/
def preprocess (sd st ed et : String) : String × String × String × String :=
  if sd = ed then
    if st ≠ "" ∧ et = "" then (sd, st, ed, "23:59:59") else (sd, st, ed, et)
  else if strLtB ed sd then (ed, et, sd, st)
  else (sd, st, ed, et)

/-- Lines 167–211: one CSV data row to the pushed event object.  The
source wraps this body in `try`/`catch`, but no expression in it can
throw on string-valued rows (`Date`, `moment` and string operations are
total in JS; invalid dates flow through as invalid values), so row
normalization is a total function. -/
def normalizeRow (tz : Int) (line : List String) : Event :=
  let p := preprocess (fld line 0) (fld line 1) (fld line 2) (fld line 3)
  let startDate := p.1
  let startTime := p.2.1
  let endDate := p.2.2.1
  let endTime := p.2.2.2
  let startMoment := newDateConcat tz startDate startTime
  let endMoment0 := newDateConcat tz endDate endTime
  let summary := if fld line 4 ≠ "" then "[" ++ fld line 4 ++ "] " ++ fld line 5 else fld line 5
  if startTime = "" ∧ endTime = "" then
    let endMoment :=
      if momSameOrAfter startMoment endMoment0 then momAdd startMoment msPerDay
      else endMoment0
    { start := { date := some (some (momFormatDate tz startMoment)), dateTime := none },
      «end» := { date := some (some (momFormatDate tz endMoment)), dateTime := none },
      summary := summary, description := fld line 6, location := fld line 8 }
  else
    { start := { date := none, dateTime := some (momToISO startMoment) },
      «end» := { date := none, dateTime := some (momToISO endMoment0) },
      summary := summary, description := fld line 6, location := fld line 8 }

/-- Lines 164–215: `parseCsv(csv).forEach(...)` — the header row (index
0) is skipped, every other row is normalized and pushed. -/
def processRows (tz : Int) (rows : List (List String)) : List Event :=
  (rows.drop 1).map (normalizeRow tz)

/-! ### The reconciliation loops (src/index.js lines 231–275) -/

/-- The insert loop's inner scan: `isEqual` is set iff some old event
matches (the `break` on first match does not change the truth value). -/
def matchedInOld (olds : List Event) (e : Event) : Bool :=
  olds.any (fun old => eventMatch old e)

/-- The delete loop's inner scan over the new events. -/
def matchedInNew (news : List Event) (old : Event) : Bool :=
  news.any (fun e => eventMatch old e)

/-- The events the insert loop sends to `Events.insert`. -/
def toInsert (news olds : List Event) : List Event :=
  news.filter (fun e => !matchedInOld olds e)

/-- The events the delete loop sends to `Events.delete`. -/
def toDelete (news olds : List Event) : List Event :=
  olds.filter (fun old => !matchedInNew news old)

/-- One reconciliation loop with a fallible store action.  For each
event, a matched event is skipped; otherwise the action is attempted
(`act e = true` means the awaited call resolved).  A rejected `await`
throws out of the `async` IIFE: the loop stops, the event's log line is
never printed, and nothing after it runs.  Result: events whose action
was attempted, events whose outcome was reported (the `Inserted:` /
`Deleted:` log lines), and whether the loop ran to completion. -/
def phase (cond act : Event → Bool) : List Event → List Event × List Event × Bool
  | [] => ([], [], true)
  | e :: rest =>
    if cond e then phase cond act rest
    else if act e then
      let r := phase cond act rest
      (e :: r.1, e :: r.2.1, r.2.2)
    else ([e], [], false)

structure RunResult where
  insAttempted : List Event
  insReported : List Event
  delAttempted : List Event
  delReported : List Event
  ok : Bool
deriving DecidableEq

/-- The whole apply stage (lines 231–275): the insert loop over
`newEvents`, then — only if it completed — the delete loop over
`oldEvents`. -/
def c2gRun (news olds : List Event) (ins del : Event → Bool) : RunResult :=
  let i := phase (matchedInOld olds) ins news
  if i.2.2 then
    let d := phase (matchedInNew news) del olds
    ⟨i.1, i.2.1, d.1, d.2.1, d.2.2⟩
  else ⟨i.1, i.2.1, [], [], false⟩

/-! ### Spec-side definitions (for refinement comparisons) -/

/-- Written from the spec's words (§4.2): value equality for `start`/`end`
— two date-only values are equal iff they denote the same instant at
midnight, two instant values iff they denote the same absolute instant,
and a date-only value is never equal to an instant value. -/
def specTimeEq (t1 t2 : TimeField) : Bool :=
  match t1.date, t1.dateTime, t2.date, t2.dateTime with
  | some (some d1), none, some (some d2), none => check d1 d2
  | none, some (some x1), none, some (some x2) => check x1 x2
  | _, _, _, _ => false

/-- A well-formed stored time value: exactly one of the two variants is
present, and it is a string (the shape of every normalized event and of
the calendar store's events). -/
def wfTF (t : TimeField) : Prop :=
  (t.date = none ∧ ∃ s, t.dateTime = some (some s)) ∨
  (t.dateTime = none ∧ ∃ s, t.date = some (some s))

def wfE (e : Event) : Prop := wfTF e.start ∧ wfTF e.«end»

/-- The row with `(startDate, startTime)` and `(endDate, endTime)`
swapped wholesale, other fields unchanged. -/
def swapRow (line : List String) : List String :=
  [fld line 2, fld line 3, fld line 0, fld line 1,
   fld line 4, fld line 5, fld line 6, fld line 7, fld line 8]

/-- A time field of the export: either empty or a parseable time. -/
def timeOK (s : String) : Prop := s = "" ∨ ∃ tm, timeMillis s = some tm

/-! ### Concrete data for witnesses and counterexamples -/

def evA : Event :=
  { start := ⟨none, some (some "2024-01-10T01:00:00.000Z")⟩,
    «end» := ⟨none, some (some "2024-01-10T02:00:00.000Z")⟩,
    summary := "A", description := "", location := "" }

def evB : Event :=
  { start := ⟨none, some (some "2024-02-01T01:00:00.000Z")⟩,
    «end» := ⟨none, some (some "2024-02-01T02:00:00.000Z")⟩,
    summary := "B", description := "", location := "" }

def evD1 : Event :=
  { start := ⟨some (some "2024-01-10"), none⟩, «end» := ⟨some (some "2024-01-11"), none⟩,
    summary := "Offsite", description := "notes", location := "HQ" }

def evD2 : Event :=
  { start := ⟨some (some "2024-01-10"), none⟩, «end» := ⟨some (some "2024-01-11"), none⟩,
    summary := "Offsite", description := "other notes", location := "elsewhere" }

def headerRow : List String :=
  ["開始日付", "開始時刻", "終了日付", "終了時刻", "予定", "予定詳細", "メモ", "非公開", "場所"]

def c4row : List String := ["x", "", "y", "", "", "Bad", "", "", ""]

def c5row : List String := ["2024-01-10", "", "2024-01-10", "", "", "Offsite", "", "", "HQ"]

def c6row : List String := ["2024-01-12", "14:00", "2024-01-10", "15:30", "外出", "Trip", "", "", ""]

def c7row : List String :=
  ["2024-01-10", "14:00", "2024-01-10", "", "会議", "Planning", "notes", "", "Room A"]

def c8row : List String := ["2024-03-05", "09:00", "2024-03-05", "10:00", "", "Standup", "", "", ""]

def c10row : List String := ["2024-01-12", "14:00", "2024-01-10", "", "", "T", "", "", ""]

/-! ## Lemmas about the reconciliation loops -/

lemma mem_toInsert (news olds : List Event) (e : Event) :
    e ∈ toInsert news olds ↔ e ∈ news ∧ ∀ old ∈ olds, eventMatch old e = false := by
  simp only [toInsert, List.mem_filter, matchedInOld, Bool.not_eq_true', List.any_eq_false,
    Bool.not_eq_true]

lemma mem_toDelete (news olds : List Event) (old : Event) :
    old ∈ toDelete news olds ↔ old ∈ olds ∧ ∀ e ∈ news, eventMatch old e = false := by
  simp only [toDelete, List.mem_filter, matchedInNew, Bool.not_eq_true', List.any_eq_false,
    Bool.not_eq_true]

lemma phase_allSucceed (cond : Event → Bool) (l : List Event) :
    phase cond (fun _ => true) l =
      (l.filter (fun e => !cond e), l.filter (fun e => !cond e), true) := by
  induction l with
  | nil => rfl
  | cons e rest ih => by_cases h : cond e <;> simp [phase, h, List.filter_cons, ih]

lemma phase_stop (cond act : Event → Bool) (xs ys : List Event)
    (h : (phase cond act xs).2.2 = false) :
    phase cond act (xs ++ ys) = phase cond act xs := by
  induction xs with
  | nil => simp [phase] at h
  | cons e rest ih =>
    simp only [phase, List.cons_append, List.append_eq] at h ⊢
    by_cases hc : cond e
    · simp only [if_pos hc] at h ⊢
      exact ih h
    · simp only [if_neg hc] at h ⊢
      by_cases ha : act e
      · simp only [if_pos ha] at h ⊢
        rw [ih h]
      · simp only [if_neg ha]

lemma phase_reported (cond act : Event → Bool) (l : List Event) :
    (phase cond act l).2.1 = (phase cond act l).1.filter act := by
  induction l with
  | nil => rfl
  | cons e rest ih =>
    simp only [phase]
    by_cases hc : cond e
    · simp only [if_pos hc]; exact ih
    · simp only [if_neg hc]
      by_cases ha : act e
      · simp only [if_pos ha]
        simpa [List.filter_cons, ha] using ih
      · simp only [if_neg ha]
        simp [List.filter_cons, ha]

/-! ## Claim theorems: reconciler -/

/-- C1: the reconciliation inserts exactly the source events with no
occurrence-matching destination event, deletes exactly the destination
events with no occurrence-matching source event, and an event matched
on both sides is neither inserted nor deleted — even when `description`
or `location` differ, which the match condition never reads.  The last
conjunct ties the computed lists to the apply loops: with an
always-succeeding store, the reported inserts and deletes are exactly
`toInsert` and `toDelete`. -/
theorem C1_reconcile (news olds : List Event) :
    (∀ e, e ∈ toInsert news olds ↔ e ∈ news ∧ ∀ old ∈ olds, eventMatch old e = false) ∧
    (∀ old, old ∈ toDelete news olds ↔ old ∈ olds ∧ ∀ e ∈ news, eventMatch old e = false) ∧
    (∀ e old, e ∈ news → old ∈ olds → eventMatch old e = true →
      e ∉ toInsert news olds ∧ old ∉ toDelete news olds) ∧
    (∀ a b d1 l1 d2 l2,
      eventMatch { a with description := d1, location := l1 }
        { b with description := d2, location := l2 } = eventMatch a b) ∧
    ((c2gRun news olds (fun _ => true) (fun _ => true)).insReported = toInsert news olds ∧
     (c2gRun news olds (fun _ => true) (fun _ => true)).delReported = toDelete news olds ∧
     (c2gRun news olds (fun _ => true) (fun _ => true)).ok = true) := by
  refine ⟨mem_toInsert news olds, mem_toDelete news olds, ?_, ?_, ?_⟩
  · intro e old he hold hm
    constructor
    · intro hmem
      obtain ⟨-, hall⟩ := (mem_toInsert news olds e).1 hmem
      rw [hall old hold] at hm
      cases hm
    · intro hmem
      obtain ⟨-, hall⟩ := (mem_toDelete news olds old).1 hmem
      rw [hall e he] at hm
      cases hm
  · intro a b d1 l1 d2 l2
    rfl
  · unfold c2gRun
    rw [phase_allSucceed, phase_allSucceed]
    exact ⟨rfl, rfl, rfl⟩

/-- Witness for C1 at a concrete matched pair: an event present (up to
occurrence match) on both sides is neither inserted nor deleted. -/
theorem C1_reconcile_app :
    evD1 ∉ toInsert [evD1] [evD2] ∧ evD2 ∉ toDelete [evD1] [evD2] :=
  (C1_reconcile [evD1] [evD2]).2.2.1 evD1 evD2 (by decide) (by decide) (by decide)

/-- C3 (as stated) is false: with an always-failing store, the second
unmatched source event is due for insertion but its insert is never
attempted, because the first rejected `await` aborts the `async` run. -/
theorem C3_cex :
    evB ∈ toInsert [evA, evB] [] ∧
    evB ∉ (c2gRun [evA, evB] [] (fun _ => false) (fun _ => false)).insAttempted := by
  constructor
  · decide
  · decide

/-- C3 amended: a failed insert or delete aborts the run at the first
failing action — later items of the same loop are never attempted, the
delete phase is skipped entirely after an insert failure, and the
individually reported outcomes are exactly the successful actions
before the failure. -/
theorem C3_abort (news olds : List Event) (ins del : Event → Bool) (xs ys : List Event)
    (hsplit : news = xs ++ ys) (hfail : (phase (matchedInOld olds) ins xs).2.2 = false) :
    (c2gRun news olds ins del).insAttempted = (phase (matchedInOld olds) ins xs).1 ∧
    (c2gRun news olds ins del).insReported
      = ((phase (matchedInOld olds) ins xs).1).filter ins ∧
    (c2gRun news olds ins del).delAttempted = [] ∧
    (c2gRun news olds ins del).delReported = [] ∧
    (c2gRun news olds ins del).ok = false := by
  subst hsplit
  have hp := phase_stop (matchedInOld olds) ins xs ys hfail
  unfold c2gRun
  rw [hp]
  dsimp only
  rw [hfail]
  simp [phase_reported]

/-- Witness for the amended C3 at a concrete failing run. -/
theorem C3_abort_app :
    (c2gRun [evA, evB] [] (fun _ => false) (fun _ => true)).insAttempted
      = (phase (matchedInOld []) (fun _ => false) [evA]).1 ∧
    (c2gRun [evA, evB] [] (fun _ => false) (fun _ => true)).insReported
      = ((phase (matchedInOld []) (fun _ => false) [evA]).1).filter (fun _ => false) ∧
    (c2gRun [evA, evB] [] (fun _ => false) (fun _ => true)).delAttempted = [] ∧
    (c2gRun [evA, evB] [] (fun _ => false) (fun _ => true)).delReported = [] ∧
    (c2gRun [evA, evB] [] (fun _ => false) (fun _ => true)).ok = false :=
  C3_abort [evA, evB] [] (fun _ => false) (fun _ => true) [evA] [evB] rfl (by decide)

/-! ## Claim theorems: normalizer (error handling and shape) -/

/-- C4 is a code bug: the source's `try`/`catch` was meant to drop rows
whose dates do not parse, but in JS neither `new Date` nor `moment`
throws on garbage — the invalid values flow through, and the row is
emitted as an event whose date fields hold the string
`"Invalid date"` instead of being dropped. -/
theorem C4_invalid_row_emitted :
    processRows 0 [headerRow, c4row] =
      [{ start := ⟨some (some "Invalid date"), none⟩,
         «end» := ⟨some (some "Invalid date"), none⟩,
         summary := "Bad", description := "", location := "" }] := by
  decide

/-- C8: per-row processing is independent — whatever one (possibly
malformed) row produces, every later row is still normalized and its
event appears in the output, in order. -/
theorem C8_rows (tz : Int) (hdr : List String) (pre post : List (List String))
    (bad r : List String) (hmem : r ∈ post) :
    normalizeRow tz r ∈ processRows tz (hdr :: (pre ++ bad :: post)) ∧
    processRows tz (hdr :: (pre ++ bad :: post))
      = processRows tz (hdr :: pre) ++ normalizeRow tz bad :: post.map (normalizeRow tz) := by
  constructor
  · unfold processRows
    simp only [List.drop_succ_cons, List.drop_zero]
    exact List.mem_map_of_mem _ (List.mem_append_right pre (List.mem_cons_of_mem bad hmem))
  · unfold processRows
    simp only [List.drop_succ_cons, List.drop_zero, List.map_append, List.map_cons]

/-- Witness for C8: a valid row after a malformed row still appears. -/
theorem C8_rows_app :
    normalizeRow 0 c8row ∈ processRows 0 (headerRow :: ([] ++ c4row :: [c8row])) ∧
    processRows 0 (headerRow :: ([] ++ c4row :: [c8row]))
      = processRows 0 (headerRow :: []) ++ normalizeRow 0 c4row :: [c8row].map (normalizeRow 0) :=
  C8_rows 0 headerRow [] [c8row] c4row c8row (by decide)

/-! ## Claim theorems: the occurrence-equality predicate -/

lemma check_empty_left (s : String) : check "" s = false := rfl

lemma check_empty_right (s : String) : check s "" = false := by
  unfold check
  rcases newDateStr s with _ | v <;> rfl

/-- The truthiness guards in front of `check` are redundant: `check`
already rejects the empty string (an invalid date, hence `NaN`). -/
lemma guard_check (s1 s2 : String) :
    (decide (s1 ≠ "") && decide (s2 ≠ "") && check s1 s2) = check s1 s2 := by
  by_cases e1 : s1 = "" <;> by_cases e2 : s2 = "" <;>
    simp [e1, e2, check_empty_left, check_empty_right]

lemma fieldCheck_spec (t1 t2 : TimeField) (h1 : wfTF t1) (h2 : wfTF t2) :
    (fieldCheck t1.date t2.date || fieldCheck t1.dateTime t2.dateTime) = specTimeEq t1 t2 := by
  obtain ⟨hd1, s1, hx1⟩ | ⟨hx1, s1, hd1⟩ := h1 <;> obtain ⟨hd2, s2, hx2⟩ | ⟨hx2, s2, hd2⟩ := h2 <;>
    rw [show specTimeEq t1 t2 = _ from rfl] <;>
    simp only [specTimeEq, fieldCheck, hd1, hx1, hd2, hx2, Bool.false_or, Bool.or_false] <;>
    first
      | rfl
      | exact guard_check _ _

/-- C2: on well-formed events (each of `start`/`end` carries exactly one
variant), the loops' occurrence predicate
`old.summary === event.summary && isEqualDate(old, event)` holds iff the
summaries are exactly equal and the start values and end values are
equal in the spec's sense (`specTimeEq`): date-only values compare as
instants at midnight, instant values as absolute instants, a date-only
value never equals an instant value; `description` and `location` are
ignored entirely (second conjunct). -/
theorem C2_predicate (a b : Event) (ha : wfE a) (hb : wfE b) :
    (eventMatch a b
      = (a.summary == b.summary && specTimeEq a.start b.start && specTimeEq a.«end» b.«end»)) ∧
    (∀ d1 l1 d2 l2,
      eventMatch { a with description := d1, location := l1 }
        { b with description := d2, location := l2 } = eventMatch a b) := by
  obtain ⟨ha1, ha2⟩ := ha
  obtain ⟨hb1, hb2⟩ := hb
  constructor
  · unfold eventMatch isEqualDate
    rw [fieldCheck_spec _ _ ha1 hb1, fieldCheck_spec _ _ ha2 hb2, Bool.and_assoc]
  · intro d1 l1 d2 l2
    rfl

/-- Witness for C2: two identical occurrences with different
description/location are matched, and the predicate agrees with the
spec's formulation on them. -/
theorem C2_predicate_app :
    eventMatch evD1 evD2
      = (evD1.summary == evD2.summary && specTimeEq evD1.start evD2.start
          && specTimeEq evD1.«end» evD2.«end») :=
  (C2_predicate evD1 evD2
    ⟨Or.inr ⟨rfl, "2024-01-10", rfl⟩, Or.inr ⟨rfl, "2024-01-11", rfl⟩⟩
    ⟨Or.inr ⟨rfl, "2024-01-10", rfl⟩, Or.inr ⟨rfl, "2024-01-11", rfl⟩⟩).1

/-- C9: every normalized event has `start` and `end` in the same
variant — both carry only the `date` key (all-day) or both carry only
the `dateTime` key (timed); never one of each. -/
theorem C9_same_variant (tz : Int) (line : List String) :
    ((normalizeRow tz line).start.date.isSome = true ∧
     (normalizeRow tz line).«end».date.isSome = true ∧
     (normalizeRow tz line).start.dateTime = none ∧
     (normalizeRow tz line).«end».dateTime = none) ∨
    ((normalizeRow tz line).start.date = none ∧
     (normalizeRow tz line).«end».date = none ∧
     (normalizeRow tz line).start.dateTime.isSome = true ∧
     (normalizeRow tz line).«end».dateTime.isSome = true) := by
  unfold normalizeRow
  dsimp only
  split
  · left; exact ⟨rfl, rfl, rfl, rfl⟩
  · right; exact ⟨rfl, rfl, rfl, rfl⟩

/-! ## Digit strings: lexicographic order agrees with numeric order -/

lemma isDig_bounds (c : Char) (h : isDig c = true) : 48 ≤ c.toNat ∧ c.toNat ≤ 57 := by
  simpa [isDig, Bool.and_eq_true, decide_eq_true_eq] using h

lemma natOfDigits_lt (l : List Char) (h : ∀ c ∈ l, isDig c = true) :
    natOfDigits l < 10 ^ l.length := by
  induction l with
  | nil => simp [natOfDigits]
  | cons c cs ih =>
    have hc := isDig_bounds c (h c (List.mem_cons_self c cs))
    have hcs := ih (fun x hx => h x (List.mem_cons_of_mem c hx))
    calc natOfDigits (c :: cs)
        = (c.toNat - 48) * 10 ^ cs.length + natOfDigits cs := rfl
      _ < (c.toNat - 48) * 10 ^ cs.length + 10 ^ cs.length := Nat.add_lt_add_left hcs _
      _ = (c.toNat - 48 + 1) * 10 ^ cs.length := by ring
      _ ≤ 10 * 10 ^ cs.length := Nat.mul_le_mul_right _ (by omega)
      _ = 10 ^ (c :: cs).length := by rw [List.length_cons, pow_succ]; ring

lemma lexLtB_irrefl : ∀ l : List Char, lexLtB l l = false
  | [] => rfl
  | c :: t => by simp [lexLtB, lexLtB_irrefl t]

lemma lexLtB_asymm : ∀ l1 l2 : List Char, lexLtB l1 l2 = true → lexLtB l2 l1 = false
  | [], [] => by simp [lexLtB]
  | [], _ :: _ => fun _ => rfl
  | _ :: _, [] => by simp [lexLtB]
  | c1 :: t1, c2 :: t2 => by
    simp only [lexLtB]
    by_cases h1 : c1.toNat < c2.toNat
    · intro _
      rw [if_neg (by omega), if_pos h1]
    · by_cases h2 : c2.toNat < c1.toNat
      · rw [if_neg h1, if_pos h2]
        intro h
        exact absurd h (by simp)
      · rw [if_neg h1, if_neg h2, if_neg h2, if_neg h1]
        exact lexLtB_asymm t1 t2

/-- Splitting a lexicographic comparison at an aligned digit block:
either the blocks already decide it numerically, or they are equal and
the comparison continues on the rests. -/
lemma blockLt : ∀ (l1 l2 r1 r2 : List Char), l1.length = l2.length →
    (∀ c ∈ l1, isDig c = true) → (∀ c ∈ l2, isDig c = true) →
    lexLtB (l1 ++ r1) (l2 ++ r2) = true →
    natOfDigits l1 < natOfDigits l2 ∨
      (natOfDigits l1 = natOfDigits l2 ∧ lexLtB r1 r2 = true)
  | [], [], r1, r2, _, _, _, h => Or.inr ⟨rfl, h⟩
  | [], _ :: _, _, _, hlen, _, _, _ => by simp at hlen
  | _ :: _, [], _, _, hlen, _, _, _ => by simp at hlen
  | c1 :: t1, c2 :: t2, r1, r2, hlen, h1, h2, h => by
    have hb1 := isDig_bounds c1 (h1 c1 (List.mem_cons_self _ _))
    have hb2 := isDig_bounds c2 (h2 c2 (List.mem_cons_self _ _))
    have ht1 : ∀ c ∈ t1, isDig c = true := fun x hx => h1 x (List.mem_cons_of_mem _ hx)
    have ht2 : ∀ c ∈ t2, isDig c = true := fun x hx => h2 x (List.mem_cons_of_mem _ hx)
    have hlen' : t1.length = t2.length := by simpa using hlen
    simp only [List.cons_append, lexLtB] at h
    by_cases hlt : c1.toNat < c2.toNat
    · left
      have hn1 : natOfDigits t1 < 10 ^ t1.length := natOfDigits_lt t1 ht1
      calc natOfDigits (c1 :: t1)
          = (c1.toNat - 48) * 10 ^ t1.length + natOfDigits t1 := rfl
        _ < (c1.toNat - 48) * 10 ^ t1.length + 10 ^ t1.length := Nat.add_lt_add_left hn1 _
        _ = (c1.toNat - 48 + 1) * 10 ^ t1.length := by ring
        _ ≤ (c2.toNat - 48) * 10 ^ t1.length := Nat.mul_le_mul_right _ (by omega)
        _ = (c2.toNat - 48) * 10 ^ t2.length := by rw [hlen']
        _ ≤ natOfDigits (c2 :: t2) := Nat.le_add_right _ _
    · by_cases hgt : c2.toNat < c1.toNat
      · rw [if_neg hlt, if_pos hgt] at h
        exact absurd h (by simp)
      · rw [if_neg hlt, if_neg hgt] at h
        have heq : c1.toNat = c2.toNat := by omega
        obtain hlt2 | ⟨heq2, hr⟩ := blockLt t1 t2 r1 r2 hlen' ht1 ht2 h
        · left
          calc natOfDigits (c1 :: t1)
              = (c1.toNat - 48) * 10 ^ t1.length + natOfDigits t1 := rfl
            _ < (c1.toNat - 48) * 10 ^ t1.length + natOfDigits t2 :=
                Nat.add_lt_add_left hlt2 _
            _ = (c2.toNat - 48) * 10 ^ t2.length + natOfDigits t2 := by rw [heq, hlen']
            _ = natOfDigits (c2 :: t2) := rfl
        · right
          constructor
          · show (c1.toNat - 48) * 10 ^ t1.length + natOfDigits t1
              = (c2.toNat - 48) * 10 ^ t2.length + natOfDigits t2
            rw [heq, hlen', heq2]
          · exact hr

/-- Inversion of the ISO date parse: the characters, their digit facts,
the parsed components, and their calendar validity. -/
lemma parseYMD_inv {l : List Char} {t : YMD} (hp : parseYMDchars l = some t) :
    ∃ y1 y2 y3 y4 m1 m2 d1 d2,
      l = [y1, y2, y3, y4, '-', m1, m2, '-', d1, d2] ∧
      (isDig y1 = true ∧ isDig y2 = true ∧ isDig y3 = true ∧ isDig y4 = true ∧
       isDig m1 = true ∧ isDig m2 = true ∧ isDig d1 = true ∧ isDig d2 = true) ∧
      t = ⟨natOfDigits [y1, y2, y3, y4], natOfDigits [m1, m2], natOfDigits [d1, d2]⟩ ∧
      1 ≤ t.y ∧ 1 ≤ t.m ∧ t.m ≤ 12 ∧ 1 ≤ t.d ∧ t.d ≤ dim (isLeap t.y) t.m := by
  unfold parseYMDchars at hp
  split at hp
  · rename_i y1 y2 y3 y4 m1 m2 d1 d2
    split at hp
    · rename_i hcond
      rw [Option.some.injEq] at hp
      subst hp
      obtain ⟨q1, q2, q3, q4, q5, q6, q7, q8, w1, w2, w3, w4, w5⟩ := hcond
      exact ⟨y1, y2, y3, y4, m1, m2, d1, d2, rfl,
        ⟨q1, q2, q3, q4, q5, q6, q7, q8⟩, rfl, w1, w2, w3, w4, w5⟩
    · exact absurd hp (by simp)
  · exact absurd hp (by simp)

/-- A lexicographically smaller valid ISO date string denotes a
lexicographically smaller `(y, m, d)` triple. -/
lemma ymd_lex {l1 l2 : List Char} {t1 t2 : YMD}
    (h1 : parseYMDchars l1 = some t1) (h2 : parseYMDchars l2 = some t2)
    (hlt : lexLtB l1 l2 = true) :
    t1.y < t2.y ∨ (t1.y = t2.y ∧ (t1.m < t2.m ∨ (t1.m = t2.m ∧ t1.d < t2.d))) := by
  obtain ⟨a1, a2, a3, a4, b1, b2, c1, c2, rfl, hd, rfl, -⟩ := parseYMD_inv h1
  obtain ⟨a1', a2', a3', a4', b1', b2', c1', c2', rfl, hd', rfl, -⟩ := parseYMD_inv h2
  obtain ⟨q1, q2, q3, q4, q5, q6, q7, q8⟩ := hd
  obtain ⟨p1, p2, p3, p4, p5, p6, p7, p8⟩ := hd'
  have hy : ∀ c ∈ [a1, a2, a3, a4], isDig c = true := by
    intro c hc
    simp only [List.mem_cons, List.not_mem_nil, or_false] at hc
    rcases hc with rfl | rfl | rfl | rfl <;> assumption
  have hy' : ∀ c ∈ [a1', a2', a3', a4'], isDig c = true := by
    intro c hc
    simp only [List.mem_cons, List.not_mem_nil, or_false] at hc
    rcases hc with rfl | rfl | rfl | rfl <;> assumption
  have hm : ∀ c ∈ [b1, b2], isDig c = true := by
    intro c hc
    simp only [List.mem_cons, List.not_mem_nil, or_false] at hc
    rcases hc with rfl | rfl <;> assumption
  have hm' : ∀ c ∈ [b1', b2'], isDig c = true := by
    intro c hc
    simp only [List.mem_cons, List.not_mem_nil, or_false] at hc
    rcases hc with rfl | rfl <;> assumption
  have hd2 : ∀ c ∈ [c1, c2], isDig c = true := by
    intro c hc
    simp only [List.mem_cons, List.not_mem_nil, or_false] at hc
    rcases hc with rfl | rfl <;> assumption
  have hd2' : ∀ c ∈ [c1', c2'], isDig c = true := by
    intro c hc
    simp only [List.mem_cons, List.not_mem_nil, or_false] at hc
    rcases hc with rfl | rfl <;> assumption
  have hsplit : lexLtB ([a1, a2, a3, a4] ++ ('-' :: ([b1, b2] ++ ('-' :: ([c1, c2] ++ [])))))
      ([a1', a2', a3', a4'] ++ ('-' :: ([b1', b2'] ++ ('-' :: ([c1', c2'] ++ []))))) = true := hlt
  obtain hylt | ⟨hyeq, hrest⟩ := blockLt _ _ _ _ (by simp) hy hy' hsplit
  · exact Or.inl hylt
  · right
    refine ⟨hyeq, ?_⟩
    have hrest' : lexLtB ([b1, b2] ++ ('-' :: ([c1, c2] ++ [])))
        ([b1', b2'] ++ ('-' :: ([c1', c2'] ++ []))) = true := by
      simpa [lexLtB] using hrest
    obtain hmlt | ⟨hmeq, hrest2⟩ := blockLt _ _ _ _ (by simp) hm hm' hrest'
    · exact Or.inl hmlt
    · right
      refine ⟨hmeq, ?_⟩
      have hrest3 : lexLtB ([c1, c2] ++ ([] : List Char))
          ([c1', c2'] ++ ([] : List Char)) = true := by
        simpa [lexLtB] using hrest2
      obtain hdlt | ⟨-, hfalse⟩ := blockLt _ _ _ _ (by simp) hd2 hd2' hrest3
      · exact hdlt
      · exact absurd hfalse (by simp [lexLtB])

/-! ## Calendar arithmetic: day numbers are monotone in the date -/

lemma dbm_d_le (leap : Bool) (m d : Nat) (hm1 : 1 ≤ m) (hm2 : m ≤ 12)
    (hd1 : 1 ≤ d) (hd2 : d ≤ dim leap m) :
    daysBeforeMonth leap m + (d - 1) ≤ 364 + (if leap then 1 else 0) := by
  cases leap <;> interval_cases m <;>
    simp [daysBeforeMonth, dim] at hd2 ⊢ <;> omega

lemma dbm_step (leap : Bool) (m1 m2 : Nat) (h1 : 1 ≤ m1) (h2 : m1 < m2) (h3 : m2 ≤ 12) :
    daysBeforeMonth leap m1 + dim leap m1 ≤ daysBeforeMonth leap m2 := by
  have hm1 : m1 ≤ 11 := by omega
  cases leap <;> interval_cases m1 <;> interval_cases m2 <;>
    simp [daysBeforeMonth, dim]

lemma leapsUpto_succ (y : Nat) :
    leapsUpto (y + 1) = leapsUpto y + (if isLeap (y + 1) then 1 else 0) := by
  unfold leapsUpto isLeap
  split_ifs with h
  · simp only [Bool.or_eq_true, Bool.and_eq_true, decide_eq_true_eq, bne_iff_ne, ne_eq,
      Bool.not_eq_true, decide_eq_false_iff_not] at h
    omega
  · simp only [Bool.or_eq_true, Bool.and_eq_true, decide_eq_true_eq, bne_iff_ne, ne_eq,
      Bool.not_eq_true, decide_eq_false_iff_not] at h
    push_neg at h
    omega

lemma leapsUpto_mono {a b : Nat} (h : a ≤ b) : leapsUpto a ≤ leapsUpto b := by
  unfold leapsUpto
  omega

lemma rataDie_lt_of_lex (t1 t2 : YMD)
    (hv1 : 1 ≤ t1.y ∧ 1 ≤ t1.m ∧ t1.m ≤ 12 ∧ 1 ≤ t1.d ∧ t1.d ≤ dim (isLeap t1.y) t1.m)
    (hv2 : 1 ≤ t2.y ∧ 1 ≤ t2.m ∧ t2.m ≤ 12 ∧ 1 ≤ t2.d ∧ t2.d ≤ dim (isLeap t2.y) t2.m)
    (hlex : t1.y < t2.y ∨ (t1.y = t2.y ∧ (t1.m < t2.m ∨ (t1.m = t2.m ∧ t1.d < t2.d)))) :
    rataDie t1 < rataDie t2 := by
  obtain ⟨hy1, hm1a, hm1b, hd1a, hd1b⟩ := hv1
  obtain ⟨hy2, hm2a, hm2b, hd2a, hd2b⟩ := hv2
  unfold rataDie
  rcases hlex with hy | ⟨hyeq, hm | ⟨hmeq, hd⟩⟩
  · have hb1 := dbm_d_le (isLeap t1.y) t1.m t1.d hm1a hm1b hd1a hd1b
    have hstep : leapsUpto t1.y = leapsUpto (t1.y - 1) + (if isLeap t1.y then 1 else 0) := by
      have h := leapsUpto_succ (t1.y - 1)
      rw [Nat.sub_add_cancel hy1] at h
      exact h
    have hmono : leapsUpto t1.y ≤ leapsUpto (t2.y - 1) := leapsUpto_mono (by omega)
    have h365 : 365 * (t1.y - 1) + 365 ≤ 365 * (t2.y - 1) := by omega
    cases hL : isLeap t1.y <;> rw [hL] at hb1 hstep <;> simp at hb1 hstep <;> omega
  · have hstep := dbm_step (isLeap t2.y) t1.m t2.m hm1a hm hm2b
    rw [hyeq] at hd1b ⊢
    omega
  · rw [hyeq, hmeq]
    omega

/-- JS string order on two valid ISO dates implies chronological order
of their day numbers. -/
lemma epochDay_lt_of_strLt (s1 s2 : String) (u1 u2 : YMD)
    (hp1 : parseYMD s1 = some u1) (hp2 : parseYMD s2 = some u2)
    (hlt : strLtB s1 s2 = true) : epochDay u1 < epochDay u2 := by
  unfold parseYMD at hp1 hp2
  unfold strLtB at hlt
  have hlex := ymd_lex hp1 hp2 hlt
  obtain ⟨_, _, _, _, _, _, _, _, -, -, -, h1a, h1b, h1c, h1d, h1e⟩ := parseYMD_inv hp1
  obtain ⟨_, _, _, _, _, _, _, _, -, -, -, h2a, h2b, h2c, h2d, h2e⟩ := parseYMD_inv hp2
  have hr := rataDie_lt_of_lex u1 u2 ⟨h1a, h1b, h1c, h1d, h1e⟩ ⟨h2a, h2b, h2c, h2d, h2e⟩ hlex
  unfold epochDay
  omega

/-! ## Normalizer computation lemmas -/

lemma timeMillis_bounds (s : String) (tm : Int) (h : timeMillis s = some tm) :
    0 ≤ tm ∧ tm ≤ 86399000 := by
  unfold timeMillis at h
  split at h
  · split at h
    · rename_i hc
      rw [Option.some.injEq] at h
      subst h
      obtain ⟨-, -, -, -, hh, hm⟩ := hc
      omega
    · exact absurd h (by simp)
  · split at h
    · rename_i hc
      rw [Option.some.injEq] at h
      subst h
      obtain ⟨-, -, -, -, -, -, hh, hm, hs⟩ := hc
      omega
    · exact absurd h (by simp)
  · exact absurd h (by simp)

lemma preprocess_same (sd st ed et : String) (h : sd = ed) (hst : st ≠ "") (het : et = "") :
    preprocess sd st ed et = (sd, st, ed, "23:59:59") := by
  unfold preprocess
  rw [if_pos h, if_pos ⟨hst, het⟩]

lemma preprocess_plain (sd st ed et : String) (h : sd = ed) (hno : ¬(st ≠ "" ∧ et = "")) :
    preprocess sd st ed et = (sd, st, ed, et) := by
  unfold preprocess
  rw [if_pos h, if_neg hno]

lemma preprocess_swap (sd st ed et : String) (h : sd ≠ ed) (hgt : strLtB ed sd = true) :
    preprocess sd st ed et = (ed, et, sd, st) := by
  unfold preprocess
  rw [if_neg h, if_pos hgt]

lemma preprocess_keep (sd st ed et : String) (h : sd ≠ ed) (hlt : strLtB ed sd = false) :
    preprocess sd st ed et = (sd, st, ed, et) := by
  unfold preprocess
  rw [if_neg h, if_neg (by simp [hlt])]

lemma newDateConcat_dateOnly (tz : Int) (s : String) (t : YMD) (hp : parseYMD s = some t) :
    newDateConcat tz s "" = some (epochDay t * msPerDay - tz * 60000) := by
  simp [newDateConcat, hp]

lemma newDateConcat_withTime (tz : Int) (s ts : String) (t : YMD) (tm : Int)
    (hp : parseYMD s = some t) (hpt : timeMillis ts = some tm) :
    newDateConcat tz s ts = some (epochDay t * msPerDay + tm - tz * 60000) := by
  have hne : ts ≠ "" := by
    intro h
    subst h
    rw [show timeMillis "" = none from rfl] at hpt
    exact Option.noConfusion hpt
  simp [newDateConcat, hp, hne, hpt]

lemma momSameOrAfter_some (x y : Int) :
    momSameOrAfter (some x) (some y) = decide (y ≤ x) := rfl

lemma momAdd_some (x n : Int) : momAdd (some x) n = some (x + n) := rfl

lemma momFormatDate_some (tz m : Int) :
    momFormatDate tz (some m) = ymdString (civilFromDays ((m + tz * 60000).ediv msPerDay)) := rfl

lemma momFormatDate_local (tz D : Int) :
    momFormatDate tz (some (D * msPerDay - tz * 60000)) = ymdString (civilFromDays D) := by
  have harg : (D * msPerDay - tz * 60000 + tz * 60000).ediv msPerDay = D := by
    rw [sub_add_cancel]
    exact Int.mul_ediv_cancel D (by decide)
  rw [momFormatDate_some, harg]

/-- The timed branch of the normalizer, given the preprocessed fields. -/
lemma normalizeRow_timed (tz : Int) (line : List String) (sd st ed et : String)
    (hpre : preprocess (fld line 0) (fld line 1) (fld line 2) (fld line 3) = (sd, st, ed, et))
    (hne : ¬(st = "" ∧ et = "")) :
    normalizeRow tz line =
      { start := ⟨none, some (momToISO (newDateConcat tz sd st))⟩,
        «end» := ⟨none, some (momToISO (newDateConcat tz ed et))⟩,
        summary := if fld line 4 ≠ "" then "[" ++ fld line 4 ++ "] " ++ fld line 5
          else fld line 5,
        description := fld line 6, location := fld line 8 } := by
  unfold normalizeRow
  rw [hpre]
  dsimp only
  rw [if_neg hne]

/-- The all-day branch of the normalizer, given the preprocessed fields. -/
lemma normalizeRow_allday (tz : Int) (line : List String) (sd ed : String)
    (hpre : preprocess (fld line 0) (fld line 1) (fld line 2) (fld line 3) = (sd, "", ed, "")) :
    normalizeRow tz line =
      { start := ⟨some (some (momFormatDate tz (newDateConcat tz sd ""))), none⟩,
        «end» := ⟨some (some (momFormatDate tz
          (if momSameOrAfter (newDateConcat tz sd "") (newDateConcat tz ed "")
           then momAdd (newDateConcat tz sd "") msPerDay
           else newDateConcat tz ed ""))), none⟩,
        summary := if fld line 4 ≠ "" then "[" ++ fld line 4 ++ "] " ++ fld line 5
          else fld line 5,
        description := fld line 6, location := fld line 8 } := by
  unfold normalizeRow
  rw [hpre]
  dsimp only
  rw [if_pos ⟨rfl, rfl⟩]

/-- The all-day branch with both dates parsed: the emitted dates in
terms of epoch day numbers, with the degenerate-range correction. -/
lemma allday_core (tz : Int) (line : List String) (sa sb : String) (ta tb : YMD)
    (hpre : preprocess (fld line 0) (fld line 1) (fld line 2) (fld line 3) = (sa, "", sb, ""))
    (hpa : parseYMD sa = some ta) (hpb : parseYMD sb = some tb) :
    normalizeRow tz line =
      { start := ⟨some (some (ymdString (civilFromDays (epochDay ta)))), none⟩,
        «end» := ⟨some (some (ymdString (civilFromDays
          (if epochDay tb ≤ epochDay ta then epochDay ta + 1 else epochDay tb)))), none⟩,
        summary := if fld line 4 ≠ "" then "[" ++ fld line 4 ++ "] " ++ fld line 5
          else fld line 5,
        description := fld line 6, location := fld line 8 } := by
  rw [normalizeRow_allday tz line sa sb hpre]
  rw [newDateConcat_dateOnly tz sa ta hpa, newDateConcat_dateOnly tz sb tb hpb]
  have hcond : momSameOrAfter (some (epochDay ta * msPerDay - tz * 60000))
      (some (epochDay tb * msPerDay - tz * 60000)) = decide (epochDay tb ≤ epochDay ta) := by
    rw [momSameOrAfter_some, decide_eq_decide]
    unfold msPerDay
    omega
  rw [hcond]
  by_cases hord : epochDay tb ≤ epochDay ta
  · rw [if_pos (by simp [hord]), if_pos hord]
    rw [show momAdd (some (epochDay ta * msPerDay - tz * 60000)) msPerDay
        = some ((epochDay ta + 1) * msPerDay - tz * 60000) from by
      rw [momAdd_some]
      congr 1
      ring]
    rw [momFormatDate_local, momFormatDate_local]
  · rw [if_neg (by simp [hord]), if_neg hord, momFormatDate_local, momFormatDate_local]

lemma forceLe (D E0 : Int) : D + 1 ≤ (if E0 ≤ D then D + 1 else E0) := by
  by_cases h : E0 ≤ D
  · rw [if_pos h]
  · rw [if_neg h]
    omega

lemma fld_swapRow (line : List String) :
    fld (swapRow line) 0 = fld line 2 ∧ fld (swapRow line) 1 = fld line 3 ∧
    fld (swapRow line) 2 = fld line 0 ∧ fld (swapRow line) 3 = fld line 1 ∧
    fld (swapRow line) 4 = fld line 4 ∧ fld (swapRow line) 5 = fld line 5 ∧
    fld (swapRow line) 6 = fld line 6 ∧ fld (swapRow line) 8 = fld line 8 :=
  ⟨rfl, rfl, rfl, rfl, rfl, rfl, rfl, rfl⟩

/-! ## Claim theorems: normalizer (all-day, swap, end-of-day default) -/

/-- C5: a row whose two time fields are empty becomes a date-only
all-day event; the emitted start is the (post-swap) start date, and the
emitted end is the (post-swap) end date except that whenever the parsed
start is on or after the parsed end — including the equal-dates case —
the end is forced to start plus one day.  Consequently the event always
spans at least one full day (`D + 1 ≤` the emitted end's day number). -/
theorem C5_allday (tz : Int) (line : List String) (t1 t2 : YMD)
    (hst : fld line 1 = "") (het : fld line 3 = "")
    (hp1 : parseYMD (fld line 0) = some t1) (hp2 : parseYMD (fld line 2) = some t2) :
    ∃ D E0 : Int,
      (D, E0) = (if fld line 0 ≠ fld line 2 ∧ strLtB (fld line 2) (fld line 0) = true
                 then (epochDay t2, epochDay t1) else (epochDay t1, epochDay t2)) ∧
      normalizeRow tz line =
        { start := ⟨some (some (ymdString (civilFromDays D))), none⟩,
          «end» := ⟨some (some (ymdString (civilFromDays
            (if E0 ≤ D then D + 1 else E0)))), none⟩,
          summary := if fld line 4 ≠ "" then "[" ++ fld line 4 ++ "] " ++ fld line 5
            else fld line 5,
          description := fld line 6, location := fld line 8 } ∧
      (E0 ≤ D → (if E0 ≤ D then D + 1 else E0) = D + 1) ∧
      D + 1 ≤ (if E0 ≤ D then D + 1 else E0) := by
  by_cases heq : fld line 0 = fld line 2
  · refine ⟨epochDay t1, epochDay t2, by rw [if_neg (by simp [heq])], ?_,
      fun h => if_pos h, forceLe _ _⟩
    exact allday_core tz line _ _ t1 t2
      (by rw [hst, het]; exact preprocess_plain _ _ _ _ heq (by simp)) hp1 hp2
  · by_cases hlt : strLtB (fld line 2) (fld line 0) = true
    · refine ⟨epochDay t2, epochDay t1, by rw [if_pos ⟨heq, hlt⟩], ?_,
        fun h => if_pos h, forceLe _ _⟩
      exact allday_core tz line _ _ t2 t1
        (by rw [hst, het]; exact preprocess_swap _ _ _ _ heq hlt) hp2 hp1
    · refine ⟨epochDay t1, epochDay t2, by rw [if_neg (by simp [hlt])], ?_,
        fun h => if_pos h, forceLe _ _⟩
      exact allday_core tz line _ _ t1 t2
        (by rw [hst, het]; exact preprocess_keep _ _ _ _ heq (by simpa using hlt)) hp1 hp2

/-- Witness for C5 at the degenerate one-day row. -/
theorem C5_allday_app :
    ∃ D E0 : Int,
      (D, E0) = (if fld c5row 0 ≠ fld c5row 2 ∧ strLtB (fld c5row 2) (fld c5row 0) = true
                 then (epochDay ⟨2024, 1, 10⟩, epochDay ⟨2024, 1, 10⟩)
                 else (epochDay ⟨2024, 1, 10⟩, epochDay ⟨2024, 1, 10⟩)) ∧
      normalizeRow 0 c5row =
        { start := ⟨some (some (ymdString (civilFromDays D))), none⟩,
          «end» := ⟨some (some (ymdString (civilFromDays
            (if E0 ≤ D then D + 1 else E0)))), none⟩,
          summary := if fld c5row 4 ≠ "" then "[" ++ fld c5row 4 ++ "] " ++ fld c5row 5
            else fld c5row 5,
          description := fld c5row 6, location := fld c5row 8 } ∧
      (E0 ≤ D → (if E0 ≤ D then D + 1 else E0) = D + 1) ∧
      D + 1 ≤ (if E0 ≤ D then D + 1 else E0) :=
  C5_allday 0 c5row ⟨2024, 1, 10⟩ ⟨2024, 1, 10⟩ rfl rfl (by decide) (by decide)

/-- C6: a reversed-range row (`startDate > endDate` in JS string order)
is handled by swapping the date/time pairs wholesale — normalizing the
row equals normalizing the swapped row — and when the row is timed the
produced event's start instant is chronologically ≤ its end instant. -/
theorem C6_swap (tz : Int) (line : List String) (t1 t2 : YMD)
    (hgt : strLtB (fld line 2) (fld line 0) = true)
    (hp1 : parseYMD (fld line 0) = some t1) (hp2 : parseYMD (fld line 2) = some t2)
    (ht1 : timeOK (fld line 1)) (ht3 : timeOK (fld line 3))
    (htimed : ¬(fld line 1 = "" ∧ fld line 3 = "")) :
    normalizeRow tz line = normalizeRow tz (swapRow line) ∧
    ∃ a b : Int,
      (normalizeRow tz line).start.dateTime = some (some (isoStr a)) ∧
      (normalizeRow tz line).«end».dateTime = some (some (isoStr b)) ∧ a ≤ b := by
  have hne : fld line 0 ≠ fld line 2 := by
    intro h
    rw [h, show strLtB (fld line 2) (fld line 2) = false from lexLtB_irrefl _] at hgt
    exact absurd hgt (by simp)
  have hpre := preprocess_swap (fld line 0) (fld line 1) (fld line 2) (fld line 3) hne hgt
  have hne2 : ¬(fld line 3 = "" ∧ fld line 1 = "") := fun h => htimed ⟨h.2, h.1⟩
  obtain ⟨e0, e1, e2, e3, e4, e5, e6, e8⟩ := fld_swapRow line
  constructor
  · have hpre2 := preprocess_keep (fld (swapRow line) 0) (fld (swapRow line) 1)
      (fld (swapRow line) 2) (fld (swapRow line) 3)
      (by rw [e0, e2]; exact hne.symm)
      (by rw [e0, e2]; exact lexLtB_asymm _ _ hgt)
    rw [normalizeRow_timed tz line _ _ _ _ hpre hne2,
      normalizeRow_timed tz (swapRow line) _ _ _ _ hpre2 (by rw [e1, e3]; exact hne2)]
    rw [e0, e1, e2, e3, e4, e5, e6, e8]
  · rw [normalizeRow_timed tz line _ _ _ _ hpre hne2]
    have hday : epochDay t2 < epochDay t1 := epochDay_lt_of_strLt _ _ _ _ hp2 hp1 hgt
    rcases ht3 with h3 | ⟨tm3, h3⟩
    · rcases ht1 with h1 | ⟨tm1, h1⟩
      · exact absurd ⟨h1, h3⟩ htimed
      · refine ⟨epochDay t2 * msPerDay - tz * 60000,
          epochDay t1 * msPerDay + tm1 - tz * 60000, ?_, ?_, ?_⟩
        · rw [h3, newDateConcat_dateOnly tz _ t2 hp2]; rfl
        · rw [newDateConcat_withTime tz _ _ t1 tm1 hp1 h1]; rfl
        · have hb := timeMillis_bounds _ _ h1
          simp only [msPerDay] at *
          omega
    · rcases ht1 with h1 | ⟨tm1, h1⟩
      · refine ⟨epochDay t2 * msPerDay + tm3 - tz * 60000,
          epochDay t1 * msPerDay - tz * 60000, ?_, ?_, ?_⟩
        · rw [newDateConcat_withTime tz _ _ t2 tm3 hp2 h3]; rfl
        · rw [h1, newDateConcat_dateOnly tz _ t1 hp1]; rfl
        · have hb := timeMillis_bounds _ _ h3
          simp only [msPerDay] at *
          omega
      · refine ⟨epochDay t2 * msPerDay + tm3 - tz * 60000,
          epochDay t1 * msPerDay + tm1 - tz * 60000, ?_, ?_, ?_⟩
        · rw [newDateConcat_withTime tz _ _ t2 tm3 hp2 h3]; rfl
        · rw [newDateConcat_withTime tz _ _ t1 tm1 hp1 h1]; rfl
        · have hb3 := timeMillis_bounds _ _ h3
          have hb1 := timeMillis_bounds _ _ h1
          simp only [msPerDay] at *
          omega

/-- Witness for C6 at a concrete reversed timed row. -/
theorem C6_swap_app :
    normalizeRow 0 c6row = normalizeRow 0 (swapRow c6row) ∧
    ∃ a b : Int,
      (normalizeRow 0 c6row).start.dateTime = some (some (isoStr a)) ∧
      (normalizeRow 0 c6row).«end».dateTime = some (some (isoStr b)) ∧ a ≤ b :=
  C6_swap 0 c6row ⟨2024, 1, 12⟩ ⟨2024, 1, 10⟩ (by decide) (by decide) (by decide)
    (Or.inr ⟨50400000, by decide⟩) (Or.inr ⟨55800000, by decide⟩) (by decide)

/-- C7: on a same-day row with a start time but no end time, the end
time is defaulted to `23:59:59`, producing a timed event that starts at
the given time and ends at `23:59:59` local time of the same day; the
summary is the title, prefixed with the bracketed category when the
category is non-empty. -/
theorem C7_end_default (tz : Int) (line : List String) (t : YMD) (tm : Int)
    (hsame : fld line 0 = fld line 2) (hst : fld line 1 ≠ "") (het : fld line 3 = "")
    (hp : parseYMD (fld line 0) = some t) (hpt : timeMillis (fld line 1) = some tm) :
    normalizeRow tz line =
      { start := ⟨none, some (some (isoStr (epochDay t * msPerDay + tm - tz * 60000)))⟩,
        «end» := ⟨none, some (some (isoStr (epochDay t * msPerDay + 86399000 - tz * 60000)))⟩,
        summary := if fld line 4 ≠ "" then "[" ++ fld line 4 ++ "] " ++ fld line 5
          else fld line 5,
        description := fld line 6, location := fld line 8 } := by
  have hpre := preprocess_same (fld line 0) (fld line 1) (fld line 2) (fld line 3)
    hsame hst het
  rw [normalizeRow_timed tz line _ _ _ _ hpre (fun h => hst h.1)]
  rw [newDateConcat_withTime tz _ _ t tm hp hpt]
  rw [newDateConcat_withTime tz _ _ t 86399000 (by rw [← hsame]; exact hp)
    (show timeMillis "23:59:59" = some 86399000 by decide)]
  rfl

/-- Witness for C7: the claim's concrete scenario row, in a UTC+9 host
zone (instants shown in UTC by `toISOString`). -/
theorem C7_end_default_app :
    normalizeRow 540 c7row =
      { start := ⟨none, some (some "2024-01-10T05:00:00.000Z")⟩,
        «end» := ⟨none, some (some "2024-01-10T14:59:59.000Z")⟩,
        summary := "[会議] Planning", description := "notes", location := "Room A" } := by
  have h := C7_end_default 540 c7row ⟨2024, 1, 10⟩ 50400000 rfl (by decide) rfl
    (by decide) (by decide)
  rw [h]
  decide

/-- C10 (as stated) is false: on a row with `startDate > endDate`, a
start time and no end time, the emitted end is NOT parsed from the end
date with the empty time string — the swap runs first, so the end comes
from the original start date and time. -/
theorem C10_cex :
    (normalizeRow 0 c10row).start.dateTime = some (some "2024-01-10T00:00:00.000Z") ∧
    (normalizeRow 0 c10row).«end».dateTime = some (some "2024-01-12T14:00:00.000Z") ∧
    (normalizeRow 0 c10row).«end».dateTime
      ≠ some (momToISO (newDateConcat 0 (fld c10row 2) "")) := by
  decide

/-- C10 amended: the `23:59:59` default applies only when the two date
fields are equal.  On a row with distinct dates, a start time and an
empty end time: if `startDate < endDate` the end is parsed from the end
date with the empty time string (local midnight of the end date); if
`startDate > endDate` the wholesale swap runs first and the end is
parsed from the original start date with the original start time.  In
neither case is `23:59:59` injected. -/
theorem C10_end_not_defaulted (tz : Int) (line : List String) (t1 t2 : YMD) (tm : Int)
    (hne : fld line 0 ≠ fld line 2) (hst : fld line 1 ≠ "") (het : fld line 3 = "")
    (hp1 : parseYMD (fld line 0) = some t1) (hp2 : parseYMD (fld line 2) = some t2)
    (hpt : timeMillis (fld line 1) = some tm) :
    (strLtB (fld line 2) (fld line 0) = false →
      normalizeRow tz line =
        { start := ⟨none, some (some (isoStr (epochDay t1 * msPerDay + tm - tz * 60000)))⟩,
          «end» := ⟨none, some (some (isoStr (epochDay t2 * msPerDay - tz * 60000)))⟩,
          summary := if fld line 4 ≠ "" then "[" ++ fld line 4 ++ "] " ++ fld line 5
            else fld line 5,
          description := fld line 6, location := fld line 8 }) ∧
    (strLtB (fld line 2) (fld line 0) = true →
      normalizeRow tz line =
        { start := ⟨none, some (some (isoStr (epochDay t2 * msPerDay - tz * 60000)))⟩,
          «end» := ⟨none, some (some (isoStr (epochDay t1 * msPerDay + tm - tz * 60000)))⟩,
          summary := if fld line 4 ≠ "" then "[" ++ fld line 4 ++ "] " ++ fld line 5
            else fld line 5,
          description := fld line 6, location := fld line 8 }) := by
  constructor
  · intro hlt
    have hpre := preprocess_keep (fld line 0) (fld line 1) (fld line 2) (fld line 3) hne hlt
    rw [normalizeRow_timed tz line _ _ _ _ hpre (fun h => hst h.1)]
    rw [newDateConcat_withTime tz _ _ t1 tm hp1 hpt, het,
      newDateConcat_dateOnly tz _ t2 hp2]
    rfl
  · intro hgt
    have hpre := preprocess_swap (fld line 0) (fld line 1) (fld line 2) (fld line 3) hne hgt
    rw [normalizeRow_timed tz line _ _ _ _ hpre (fun h => hst h.2)]
    rw [het, newDateConcat_dateOnly tz _ t2 hp2,
      newDateConcat_withTime tz _ _ t1 tm hp1 hpt]
    rfl

/-- Witness for the amended C10 at the counterexample row (the swap
case): the end comes from the original start date and time. -/
theorem C10_end_not_defaulted_app :
    normalizeRow 0 c10row =
      { start := ⟨none, some (some "2024-01-10T00:00:00.000Z")⟩,
        «end» := ⟨none, some (some "2024-01-12T14:00:00.000Z")⟩,
        summary := "T", description := "", location := "" } := by
  obtain ⟨-, h⟩ := C10_end_not_defaulted 0 c10row ⟨2024, 1, 12⟩ ⟨2024, 1, 10⟩ 50400000
    (by decide) (by decide) rfl (by decide) (by decide) (by decide)
  rw [h (by decide)]
  decide

end C2G
